import Mathlib

/-!
Verification of the usage-aggregation worker (`src/main.ts`).

Strings from the JavaScript source are modelled as `List Char` where the
claims talk about substring structure (the key masker and the credential
secrets), and as Lean `String` for opaque payloads (ids, error messages,
rendered dates).  JavaScript numbers are modelled as `Int` for token counts
and epoch timestamps and as `Rat` for the usage ratio.  The network is
modelled by oracles: a per-attempt upstream response for the single-key
fetch, and a per-key result for the aggregation pipeline.
-/

namespace DroidApikey

/-! ### Configuration (`CONFIG`, src/main.ts lines 58-65) -/

def KEY_MASK_PREFIX_LENGTH : Nat := 4

def KEY_MASK_SUFFIX_LENGTH : Nat := 4

def AUTO_REFRESH_INTERVAL_SECONDS : Nat := 60

def TIMEZONE_OFFSET_HOURS : Int := 8

/-! ### Key masking (`maskApiKey`, src/main.ts lines 110-115) -/

def maskApiKey (key : List Char) : List Char :=
  if key.length ≤ KEY_MASK_PREFIX_LENGTH + KEY_MASK_SUFFIX_LENGTH then
    key.take KEY_MASK_PREFIX_LENGTH ++ ['.', '.', '.']
  else
    key.take KEY_MASK_PREFIX_LENGTH ++ ['.', '.', '.']
      ++ key.drop (key.length - KEY_MASK_SUFFIX_LENGTH)

/-! ### Date rendering (`formatDate`, `getBeijingTime`, `formatDateTime`,
src/main.ts lines 117-133).  The JavaScript `Date` object is a platform
primitive; its epoch-millisecond to UTC civil-date conversion is modelled by
`civilFromDays` (the standard Gregorian civil-from-days algorithm) and its
`toISOString` date part by `toISODate`. -/

/-- Models the UTC civil date `(year, month, day)` of a day number counted
from the Unix epoch, as computed by the JavaScript `Date` object. -/
def civilFromDays (z0 : Int) : Int × Nat × Nat :=
  let z := z0 + 719468
  let era : Int := Int.fdiv z 146097
  let doe : Nat := (z - era * 146097).toNat
  let yoe : Nat := (doe - doe / 1460 + doe / 36524 - doe / 146096) / 365
  let doy : Nat := doe - (365 * yoe + yoe / 4 - yoe / 100)
  let mp : Nat := (5 * doy + 2) / 153
  let d : Nat := doy - (153 * mp + 2) / 5 + 1
  let m : Nat := if mp < 10 then mp + 3 else mp - 9
  let y : Int := (yoe : Int) + era * 400
  (if m ≤ 2 then y + 1 else y, m, d)

def pad2 (n : Nat) : String :=
  if n < 10 then "0" ++ toString n else toString n

def padTo (w : Nat) (n : Nat) : String :=
  let s := toString n
  String.mk (List.replicate (w - s.length) '0') ++ s

/-- Models the year rendering of `Date.prototype.toISOString`: four digits
for years 0 to 9999, expanded six-digit form with a sign otherwise. -/
def isoYear (y : Int) : String :=
  if 0 ≤ y ∧ y ≤ 9999 then padTo 4 y.toNat
  else if y < 0 then "-" ++ padTo 6 (-y).toNat
  else "+" ++ padTo 6 y.toNat

/-- Models the date part of `new Date(t).toISOString()`: the UTC calendar
date of epoch-millisecond `t`, rendered "YYYY-MM-DD". -/
def toISODate (t : Int) : String :=
  match civilFromDays (Int.fdiv t 86400000) with
  | (y, m, d) => isoYear y ++ "-" ++ pad2 m ++ "-" ++ pad2 d

/-- The timestamp range accepted by the JavaScript `Date` object; outside it
`toISOString` throws, which `formatDate` catches. -/
def MAX_ECMA_TIMESTAMP : Nat := 8640000000000000

def formatDate (timestamp : Option Int) : String :=
  match timestamp with
  | none => "N/A"
  | some t => if t.natAbs ≤ MAX_ECMA_TIMESTAMP then toISODate t else "Invalid Date"

def getBeijingTime (nowMs : Int) : Int :=
  nowMs + TIMEZONE_OFFSET_HOURS * 60 * 60 * 1000

def formatDateTime (tMs : Int) : String :=
  let days := Int.fdiv tMs 86400000
  let msOfDay := (tMs - days * 86400000).toNat
  match civilFromDays days with
  | (y, m, d) =>
    toString y ++ "-" ++ pad2 m ++ "-" ++ pad2 d ++ " "
      ++ pad2 (msOfDay / 3600000) ++ ":" ++ pad2 (msOfDay % 3600000 / 60000)
      ++ ":" ++ pad2 (msOfDay % 60000 / 1000)

/-! ### Data model (src/main.ts lines 8-54) -/

structure ApiKey where
  id : String
  key : List Char
deriving DecidableEq

structure ApiUsageData where
  id : String
  key : List Char
  startDate : String
  endDate : String
  orgTotalTokensUsed : Int
  totalAllowance : Int
  usedRatio : Rat
deriving DecidableEq

structure ApiErrorData where
  id : String
  key : List Char
  error : String
deriving DecidableEq

/-- The tagged union `ApiUsageData | ApiErrorData`; the source distinguishes
the variants by presence of the `error` field. -/
inductive ApiKeyResult where
  | usage (u : ApiUsageData)
  | failure (e : ApiErrorData)
deriving DecidableEq

structure UsageTotals where
  total_orgTotalTokensUsed : Int
  total_totalAllowance : Int
  totalRemaining : Int
deriving DecidableEq

structure AggregatedResponse where
  update_time : String
  total_count : Nat
  totals : UsageTotals
  data : List ApiKeyResult
deriving DecidableEq

/-- Upstream response body, with optionality for fields the worker guards
against being absent or falsy. -/
structure StandardUsage where
  orgTotalTokensUsed : Option Int
  totalAllowance : Option Int
  usedRatio : Option Rat
deriving DecidableEq

structure UsageBlock where
  startDate : Option Int
  endDate : Option Int
  standard : Option StandardUsage
deriving DecidableEq

structure ApiResponse where
  usage : Option UsageBlock
deriving DecidableEq

/-- One upstream attempt either fails at the transport layer (network error,
timeout) or yields an HTTP status; for a 2xx status, `none` as the body
models a malformed JSON body (`response.json()` throwing). -/
inductive UpstreamResponse where
  | transportError
  | http (status : Nat) (body : Option ApiResponse)
deriving DecidableEq

/-- Outcome of `fetchApiKeyData`: the returned result together with the
number of upstream calls made and the backoff delays awaited, in order. -/
structure FetchOutcome where
  result : ApiKeyResult
  calls : Nat
  delays : List Nat
deriving DecidableEq

/-- The type guard `isApiUsageData` (src/main.ts line 215). -/
def isApiUsageData : ApiKeyResult → Bool
  | ApiKeyResult.usage _ => true
  | ApiKeyResult.failure _ => false

/-- The check `'error' in r` used on src/main.ts line 252. -/
def hasError : ApiKeyResult → Bool
  | ApiKeyResult.usage _ => false
  | ApiKeyResult.failure _ => true

/-- The `key` field common to both variants of a result. -/
def resultKeyField : ApiKeyResult → List Char
  | ApiKeyResult.usage u => u.key
  | ApiKeyResult.failure e => e.key

/-! ### Single-credential fetch (`fetchApiKeyData`, src/main.ts lines
172-213).  The network is modelled by an oracle giving the upstream response
to the attempt made at each retry count; attempts are made at retry counts
`retryCount, retryCount + 1, ...`. -/

def fetchApiKeyData (id : String) (key : List Char) (oracle : Nat → UpstreamResponse)
    (retryCount : Nat) : FetchOutcome :=
  let maskedKey := maskApiKey key
  match oracle retryCount with
  | UpstreamResponse.transportError =>
    ⟨ApiKeyResult.failure ⟨id, maskedKey, "Failed to fetch"⟩, 1, []⟩
  | UpstreamResponse.http status body =>
    if 200 ≤ status ∧ status ≤ 299 then
      match body with
      | none => ⟨ApiKeyResult.failure ⟨id, maskedKey, "Failed to fetch"⟩, 1, []⟩
      | some apiData =>
        match apiData.usage with
        | none => ⟨ApiKeyResult.failure ⟨id, maskedKey, "Invalid API response"⟩, 1, []⟩
        | some u =>
          match u.standard with
          | none => ⟨ApiKeyResult.failure ⟨id, maskedKey, "Invalid API response"⟩, 1, []⟩
          | some st =>
            ⟨ApiKeyResult.usage ⟨id, maskedKey, formatDate u.startDate, formatDate u.endDate,
              Option.getD st.orgTotalTokensUsed 0, Option.getD st.totalAllowance 0,
              Option.getD (StandardUsage.usedRatio st) 0⟩, 1, []⟩
    else if h : status = 401 ∧ retryCount < 2 then
      let r := fetchApiKeyData id key oracle (retryCount + 1)
      ⟨r.result, r.calls + 1, (retryCount + 1) * 1000 :: r.delays⟩
    else
      ⟨ApiKeyResult.failure ⟨id, maskedKey, "HTTP " ++ toString status⟩, 1, []⟩
termination_by 2 - retryCount
decreasing_by omega

/-! ### Batch scheduler (`batchProcess`, src/main.ts lines 151-170).  The
pure results are paired with a trace of scheduling events: each chunk run
(whose workers the source awaits together via `Promise.all` before moving
on) followed, when further items remain, by the inter-batch sleep. -/

inductive BatchEvent (T : Type) where
  | chunk (batch : List T)
  | sleep (ms : Nat)
deriving DecidableEq

def batchProcess {T R : Type} (items : List T) (processor : T → R)
    (concurrency : Nat) (delayMs : Nat) (hc : 0 < concurrency) :
    List R × List (BatchEvent T) :=
  match items with
  | [] => ([], [])
  | x :: xs =>
    let batch := (x :: xs).take concurrency
    let rest := (x :: xs).drop concurrency
    let r := batchProcess rest processor concurrency delayMs hc
    (batch.map processor ++ r.1,
      BatchEvent.chunk batch ::
        (if rest.isEmpty then r.2 else BatchEvent.sleep delayMs :: r.2))
termination_by items.length
decreasing_by simp; omega

/-- Modelled from the spec: "partition `items` into consecutive chunks of
size `concurrency`" (the last chunk may be shorter). -/
def toChunks {T : Type} (concurrency : Nat) (hc : 0 < concurrency) :
    List T → List (List T)
  | [] => []
  | x :: xs => (x :: xs).take concurrency :: toChunks concurrency hc ((x :: xs).drop concurrency)
termination_by l => l.length
decreasing_by simp; omega

/-- Modelled from the spec: run the chunks in order, inserting exactly one
sleep of `delayMs` between consecutive chunks and none after the last. -/
def chunkTrace {T : Type} (delayMs : Nat) : List (List T) → List (BatchEvent T)
  | [] => []
  | [b] => [BatchEvent.chunk b]
  | b :: b2 :: bs =>
    BatchEvent.chunk b :: BatchEvent.sleep delayMs :: chunkTrace delayMs (b2 :: bs)

def isSleepEvent {T : Type} : BatchEvent T → Bool
  | BatchEvent.sleep _ => true
  | BatchEvent.chunk _ => false

/-! ### Aggregation (`getAggregatedData`, src/main.ts lines 217-254).  The
per-key fetch is abstracted by `fetchResult` (the worker
`({id, key}) => fetchApiKeyData(id, key)` under the ambient network); the
second component counts invocations of the batch scheduler, which is where
every upstream fetch of this path happens. -/

def remainingOf (u : ApiUsageData) : Int :=
  max 0 (u.totalAllowance - u.orgTotalTokensUsed)

def remainingR : ApiKeyResult → Int
  | ApiKeyResult.usage u => remainingOf u
  | ApiKeyResult.failure _ => 0

/-- The sort order of the comparator `(a, b) => b.remaining - a.remaining`:
`a` may be placed before `b` exactly when the comparator is nonpositive,
i.e. remaining is descending.  The source's `Array.prototype.sort` is
stable (ECMAScript 2019), modelled by a stable insertion sort. -/
def remGE (a b : ApiKeyResult) : Prop := remainingR b ≤ remainingR a

instance : DecidableRel remGE := fun a b => Int.decLe _ _

instance : IsTotal ApiKeyResult remGE :=
  ⟨fun a b => Int.le_total (remainingR b) (remainingR a)⟩

instance : IsTrans ApiKeyResult remGE :=
  ⟨fun _ _ _ hab hbc => le_trans hbc hab⟩

/-- Results whose remaining balance equals `k`; used to state that the sort
is stable on ties. -/
def remEq (k : Int) (r : ApiKeyResult) : Bool := remainingR r = k

def usedOf : ApiKeyResult → Int
  | ApiKeyResult.usage u => u.orgTotalTokensUsed
  | ApiKeyResult.failure _ => 0

def allowanceOf : ApiKeyResult → Int
  | ApiKeyResult.usage u => u.totalAllowance
  | ApiKeyResult.failure _ => 0

def totalsStep (acc : UsageTotals) (res : ApiKeyResult) : UsageTotals :=
  ⟨acc.total_orgTotalTokensUsed + usedOf res,
   acc.total_totalAllowance + allowanceOf res,
   acc.totalRemaining + remainingR res⟩

def getAggregatedData (keyPairs : List ApiKey) (fetchResult : ApiKey → ApiKeyResult)
    (nowMs : Int) : AggregatedResponse × Nat :=
  let beijingTime := getBeijingTime nowMs
  let emptyResponse : AggregatedResponse :=
    ⟨formatDateTime beijingTime, 0, ⟨0, 0, 0⟩, []⟩
  if keyPairs.length = 0 then (emptyResponse, 0)
  else
    let results := (batchProcess keyPairs fetchResult 10 100 (by norm_num)).1
    let validResults := results.filter isApiUsageData
    let sortedValid := List.insertionSort remGE validResults
    let totals := validResults.foldl totalsStep ⟨0, 0, 0⟩
    (⟨formatDateTime beijingTime, keyPairs.length, totals,
      sortedValid ++ results.filter hasError⟩, 1)

/-! ### Report cache and orchestrator (`getCachedData`, `setCachedData`,
`handleGetData`, src/main.ts lines 97-106 and 258-273). -/

/-- Modelled from the spec: the Cloudflare KV slot holding "cache:data" is
external to src/main.ts; a value is stored with an absolute expiry
(`put` with `expirationTtl`) and a read at or after the expiry behaves as
if the key were absent. -/
structure KVCache where
  slot : Option (AggregatedResponse × Nat)
deriving DecidableEq

def getCachedData (st : KVCache) (nowSec : Nat) : Option AggregatedResponse :=
  match st.slot with
  | none => none
  | some (cached, expiry) => if nowSec < expiry then some cached else none

def setCachedData (st : KVCache) (nowSec : Nat) (dat : AggregatedResponse) : KVCache :=
  ⟨some (dat, nowSec + AUTO_REFRESH_INTERVAL_SECONDS * 2)⟩

def handleGetData (st : KVCache) (nowSec : Nat) (keyPairs : List ApiKey)
    (fetchResult : ApiKey → ApiKeyResult) (nowMs : Int) :
    AggregatedResponse × KVCache :=
  match getCachedData st nowSec with
  | some cachedData => (cachedData, st)
  | none =>
    let dat := (getAggregatedData keyPairs fetchResult nowMs).1
    (dat, setCachedData st nowSec dat)

/-! ## Theorems -/

/-! ### Key masking: claims C9 and C10 -/

lemma maskApiKey_length_of_long {key : List Char} (h : 8 < key.length) :
    (maskApiKey key).length = 11 := by
  have h4 : 4 ≤ key.length := by omega
  rw [maskApiKey]
  rw [if_neg (by simp [KEY_MASK_PREFIX_LENGTH, KEY_MASK_SUFFIX_LENGTH]; omega)]
  simp [KEY_MASK_PREFIX_LENGTH, KEY_MASK_SUFFIX_LENGTH]
  omega

/-- Claim C9, counterexample: the secret "abcd...efgh" has length 11 > P+S = 8,
yet its mask is the secret itself, so the full secret occurs contiguously in
the masked output, refuting the non-containment conjunct of the claim. -/
theorem c9_counterexample :
    8 < (['a', 'b', 'c', 'd', '.', '.', '.', 'e', 'f', 'g', 'h'] : List Char).length ∧
    (['a', 'b', 'c', 'd', '.', '.', '.', 'e', 'f', 'g', 'h'] : List Char) <:+:
      maskApiKey ['a', 'b', 'c', 'd', '.', '.', '.', 'e', 'f', 'g', 'h'] :=
  ⟨by decide, ⟨[], [], by decide⟩⟩

/-- Claim C9 (amended): with P = 4 and S = 4, `mask` equals
`secret[0:4] ++ "..."` when the length is at most 8 and
`secret[0:4] ++ "..." ++ secret[len-4:]` otherwise; it is total (empty input
yields "..."), always starts with the first 4 characters, and — amended —
the result never contains the full secret as a contiguous substring when the
secret is longer than 11 characters (P+S+3); for lengths 9 to 11 the
guarantee can fail, as the counterexample shows. -/
theorem c9_mask_shape (key : List Char) :
    (key.length ≤ 8 → maskApiKey key = key.take 4 ++ ['.', '.', '.']) ∧
    (8 < key.length →
      maskApiKey key = key.take 4 ++ ['.', '.', '.'] ++ key.drop (key.length - 4)) ∧
    maskApiKey [] = ['.', '.', '.'] ∧
    key.take 4 <+: maskApiKey key ∧
    (11 < key.length → ¬ key <:+: maskApiKey key) := by
  refine ⟨?_, ?_, by decide, ?_, ?_⟩
  · intro h
    rw [maskApiKey, if_pos (by simpa [KEY_MASK_PREFIX_LENGTH, KEY_MASK_SUFFIX_LENGTH] using h)]
    rfl
  · intro h
    rw [maskApiKey,
      if_neg (by simp [KEY_MASK_PREFIX_LENGTH, KEY_MASK_SUFFIX_LENGTH]; omega)]
    rfl
  · rw [maskApiKey]
    split
    · exact List.prefix_append _ _
    · rw [List.append_assoc]
      exact List.prefix_append _ _
  · intro h hinf
    have hle := hinf.length_le
    rw [maskApiKey_length_of_long (by omega)] at hle
    omega

/-- Witness for C9 at the 12-character secret "abcdefghijkl". -/
theorem c9_mask_shape_witness :
    (['a', 'b', 'c', 'd', 'e', 'f', 'g', 'h', 'i', 'j', 'k', 'l'] : List Char).take 4 <+:
      maskApiKey ['a', 'b', 'c', 'd', 'e', 'f', 'g', 'h', 'i', 'j', 'k', 'l'] ∧
    ¬ (['a', 'b', 'c', 'd', 'e', 'f', 'g', 'h', 'i', 'j', 'k', 'l'] : List Char) <:+:
      maskApiKey ['a', 'b', 'c', 'd', 'e', 'f', 'g', 'h', 'i', 'j', 'k', 'l'] :=
  ⟨(c9_mask_shape _).2.2.2.1, (c9_mask_shape _).2.2.2.2 (by decide)⟩

/-- Claim C10: for a non-empty secret of length at most P = 4, the mask is
the whole secret followed by "...", so the raw secret appears contiguously
in the masked output. -/
theorem c10_short_secret_leak (key : List Char) (hne : key ≠ []) (hlen : key.length ≤ 4) :
    maskApiKey key = key ++ ['.', '.', '.'] ∧ key <:+: maskApiKey key := by
  have ht : key.take 4 = key := List.take_of_length_le hlen
  have hm : maskApiKey key = key ++ ['.', '.', '.'] := by
    rw [maskApiKey,
      if_pos (by simp [KEY_MASK_PREFIX_LENGTH, KEY_MASK_SUFFIX_LENGTH]; omega),
      KEY_MASK_PREFIX_LENGTH, ht]
  exact ⟨hm, hm ▸ (List.prefix_append _ _).isInfix⟩

/-- Witness for C10 at the secret "ab". -/
theorem c10_short_secret_leak_witness :
    maskApiKey ['a', 'b'] = ['a', 'b'] ++ ['.', '.', '.'] ∧
    (['a', 'b'] : List Char) <:+: maskApiKey ['a', 'b'] :=
  c10_short_secret_leak ['a', 'b'] (by decide) (by decide)

/-! ### Single-credential fetch: branch lemmas -/

lemma fetchApiKeyData_transport {oracle : Nat → UpstreamResponse} {n : Nat}
    (id : String) (key : List Char) (h : oracle n = UpstreamResponse.transportError) :
    fetchApiKeyData id key oracle n =
      ⟨ApiKeyResult.failure ⟨id, maskApiKey key, "Failed to fetch"⟩, 1, []⟩ := by
  rw [fetchApiKeyData, h]

lemma fetchApiKeyData_badJson {oracle : Nat → UpstreamResponse} {n s : Nat}
    (id : String) (key : List Char) (hok : 200 ≤ s ∧ s ≤ 299)
    (h : oracle n = UpstreamResponse.http s none) :
    fetchApiKeyData id key oracle n =
      ⟨ApiKeyResult.failure ⟨id, maskApiKey key, "Failed to fetch"⟩, 1, []⟩ := by
  rw [fetchApiKeyData, h]
  try dsimp only
  rw [if_pos hok]

lemma fetchApiKeyData_noUsage {oracle : Nat → UpstreamResponse} {n s : Nat}
    {bd : ApiResponse} (id : String) (key : List Char) (hok : 200 ≤ s ∧ s ≤ 299)
    (h : oracle n = UpstreamResponse.http s (some bd)) (hu : bd.usage = none) :
    fetchApiKeyData id key oracle n =
      ⟨ApiKeyResult.failure ⟨id, maskApiKey key, "Invalid API response"⟩, 1, []⟩ := by
  rw [fetchApiKeyData, h]
  try dsimp only
  rw [if_pos hok]
  try dsimp only
  rw [hu]

lemma fetchApiKeyData_noStandard {oracle : Nat → UpstreamResponse} {n s : Nat}
    {bd : ApiResponse} {u : UsageBlock} (id : String) (key : List Char)
    (hok : 200 ≤ s ∧ s ≤ 299) (h : oracle n = UpstreamResponse.http s (some bd))
    (hu : bd.usage = some u) (hst : u.standard = none) :
    fetchApiKeyData id key oracle n =
      ⟨ApiKeyResult.failure ⟨id, maskApiKey key, "Invalid API response"⟩, 1, []⟩ := by
  rw [fetchApiKeyData, h]
  try dsimp only
  rw [if_pos hok]
  try dsimp only
  rw [hu]
  try dsimp only
  rw [hst]

lemma fetchApiKeyData_ok {oracle : Nat → UpstreamResponse} {n s : Nat}
    {bd : ApiResponse} {u : UsageBlock} {st : StandardUsage} (id : String)
    (key : List Char) (hok : 200 ≤ s ∧ s ≤ 299)
    (h : oracle n = UpstreamResponse.http s (some bd)) (hu : bd.usage = some u)
    (hst : u.standard = some st) :
    fetchApiKeyData id key oracle n =
      ⟨ApiKeyResult.usage ⟨id, maskApiKey key,
        formatDate (UsageBlock.startDate u), formatDate (UsageBlock.endDate u),
        Option.getD (StandardUsage.orgTotalTokensUsed st) 0,
        Option.getD (StandardUsage.totalAllowance st) 0,
        Option.getD (StandardUsage.usedRatio st) 0⟩, 1, []⟩ := by
  rw [fetchApiKeyData, h]
  try dsimp only
  rw [if_pos hok]
  try dsimp only
  rw [hu]
  try dsimp only
  rw [hst]

lemma fetchApiKeyData_retry {oracle : Nat → UpstreamResponse} {n : Nat}
    {b : Option ApiResponse} (id : String) (key : List Char)
    (h : oracle n = UpstreamResponse.http 401 b) (hn : n < 2) :
    fetchApiKeyData id key oracle n =
      ⟨(fetchApiKeyData id key oracle (n + 1)).result,
       (fetchApiKeyData id key oracle (n + 1)).calls + 1,
       (n + 1) * 1000 :: (fetchApiKeyData id key oracle (n + 1)).delays⟩ := by
  rw [fetchApiKeyData, h]
  try dsimp only
  rw [if_neg (by omega), dif_pos (by omega)]

lemma fetchApiKeyData_httpFail {oracle : Nat → UpstreamResponse} {n s : Nat}
    {b : Option ApiResponse} (id : String) (key : List Char)
    (h : oracle n = UpstreamResponse.http s b) (hok : ¬ (200 ≤ s ∧ s ≤ 299))
    (hnr : ¬ (s = 401 ∧ n < 2)) :
    fetchApiKeyData id key oracle n =
      ⟨ApiKeyResult.failure ⟨id, maskApiKey key, "HTTP " ++ toString s⟩, 1, []⟩ := by
  rw [fetchApiKeyData, h]
  try dsimp only
  rw [if_neg hok, dif_neg hnr]

/-- Either the call returns after one upstream attempt, or it retried. -/
lemma fetchApiKeyData_calls_shape (id : String) (key : List Char)
    (oracle : Nat → UpstreamResponse) (n : Nat) :
    (fetchApiKeyData id key oracle n).calls = 1 ∨
    (n < 2 ∧ (fetchApiKeyData id key oracle n).calls
      = (fetchApiKeyData id key oracle (n + 1)).calls + 1) := by
  cases ho : oracle n with
  | transportError => exact Or.inl (by rw [fetchApiKeyData_transport id key ho])
  | http s b =>
    by_cases hok : 200 ≤ s ∧ s ≤ 299
    · rcases b with _ | bd
      · exact Or.inl (by rw [fetchApiKeyData_badJson id key hok ho])
      · rcases hu : bd.usage with _ | u
        · exact Or.inl (by rw [fetchApiKeyData_noUsage id key hok ho hu])
        · rcases hst : u.standard with _ | st
          · exact Or.inl (by rw [fetchApiKeyData_noStandard id key hok ho hu hst])
          · exact Or.inl (by rw [fetchApiKeyData_ok id key hok ho hu hst])
    · by_cases hr : s = 401 ∧ n < 2
      · refine Or.inr ⟨hr.2, ?_⟩
        rw [hr.1] at ho
        rw [fetchApiKeyData_retry id key ho hr.2]
      · exact Or.inl (by rw [fetchApiKeyData_httpFail id key ho hok hr])

lemma fetchApiKeyData_calls_le_three (id : String) (key : List Char)
    (oracle : Nat → UpstreamResponse) :
    (fetchApiKeyData id key oracle 0).calls ≤ 3 := by
  have h2 : (fetchApiKeyData id key oracle 2).calls = 1 := by
    rcases fetchApiKeyData_calls_shape id key oracle 2 with h | h
    · exact h
    · omega
  have h1 : (fetchApiKeyData id key oracle 1).calls ≤ 2 := by
    rcases fetchApiKeyData_calls_shape id key oracle 1 with h | h
    · omega
    · norm_num at h
      omega
  rcases fetchApiKeyData_calls_shape id key oracle 0 with h | h
  · omega
  · norm_num at h
    omega

/-- Claim C3: a single-credential fetch makes at most 3 upstream attempts;
a transport failure is never retried and yields the generic fetch-failure
message ("Failed to fetch"); a non-2xx status other than 401 fails
immediately with "HTTP {status}"; 401 twice then 200 with a parseable body
succeeds after exactly 3 upstream calls with backoff delays of 1s then 2s;
a 401 that persists through both retries fails with "HTTP 401" after 3
calls. -/
theorem c3_retry_policy (id : String) (key : List Char)
    (oracle : Nat → UpstreamResponse) :
    (fetchApiKeyData id key oracle 0).calls ≤ 3 ∧
    (oracle 0 = UpstreamResponse.transportError →
      fetchApiKeyData id key oracle 0 =
        ⟨ApiKeyResult.failure ⟨id, maskApiKey key, "Failed to fetch"⟩, 1, []⟩) ∧
    (∀ s b, ¬ (200 ≤ s ∧ s ≤ 299) → s ≠ 401 →
      oracle 0 = UpstreamResponse.http s b →
      fetchApiKeyData id key oracle 0 =
        ⟨ApiKeyResult.failure ⟨id, maskApiKey key, "HTTP " ++ toString s⟩, 1, []⟩) ∧
    (∀ b0 b1 bd u st, oracle 0 = UpstreamResponse.http 401 b0 →
      oracle 1 = UpstreamResponse.http 401 b1 →
      oracle 2 = UpstreamResponse.http 200 (some bd) →
      bd.usage = some u → u.standard = some st →
      isApiUsageData (fetchApiKeyData id key oracle 0).result = true ∧
      (fetchApiKeyData id key oracle 0).calls = 3 ∧
      (fetchApiKeyData id key oracle 0).delays = [1000, 2000]) ∧
    (∀ b0 b1 b2, oracle 0 = UpstreamResponse.http 401 b0 →
      oracle 1 = UpstreamResponse.http 401 b1 →
      oracle 2 = UpstreamResponse.http 401 b2 →
      fetchApiKeyData id key oracle 0 =
        ⟨ApiKeyResult.failure ⟨id, maskApiKey key, "HTTP 401"⟩, 3, [1000, 2000]⟩) := by
  refine ⟨fetchApiKeyData_calls_le_three id key oracle, ?_, ?_, ?_, ?_⟩
  · intro h0
    rw [fetchApiKeyData_transport id key h0]
  · intro s b hok h401 h0
    rw [fetchApiKeyData_httpFail id key h0 hok (by omega)]
  · intro b0 b1 bd u st h0 h1 h2 hu hst
    rw [fetchApiKeyData_retry id key h0 (by omega)]
    simp only [Nat.reduceAdd, Nat.reduceMul]
    rw [fetchApiKeyData_retry id key h1 (by omega)]
    simp only [Nat.reduceAdd, Nat.reduceMul]
    rw [fetchApiKeyData_ok id key (by omega) h2 hu hst]
    exact ⟨rfl, rfl, rfl⟩
  · intro b0 b1 b2 h0 h1 h2
    rw [fetchApiKeyData_retry id key h0 (by omega)]
    simp only [Nat.reduceAdd, Nat.reduceMul]
    rw [fetchApiKeyData_retry id key h1 (by omega)]
    simp only [Nat.reduceAdd, Nat.reduceMul]
    rw [fetchApiKeyData_httpFail id key h2 (by omega) (by omega)]
    rfl

/-- Witness oracle for C3: 401 on the first two attempts, then a parseable
200. -/
theorem c3_retry_policy_witness :
    isApiUsageData (fetchApiKeyData "k1" ['s']
      (fun n => match n with
        | 0 => UpstreamResponse.http 401 none
        | 1 => UpstreamResponse.http 401 none
        | _ => UpstreamResponse.http 200 (some ⟨some ⟨some 1, some 2, some ⟨some 3, some 4, some 0⟩⟩⟩))
      0).result = true ∧
    (fetchApiKeyData "k1" ['s']
      (fun n => match n with
        | 0 => UpstreamResponse.http 401 none
        | 1 => UpstreamResponse.http 401 none
        | _ => UpstreamResponse.http 200 (some ⟨some ⟨some 1, some 2, some ⟨some 3, some 4, some 0⟩⟩⟩))
      0).calls = 3 ∧
    (fetchApiKeyData "k1" ['s']
      (fun n => match n with
        | 0 => UpstreamResponse.http 401 none
        | 1 => UpstreamResponse.http 401 none
        | _ => UpstreamResponse.http 200 (some ⟨some ⟨some 1, some 2, some ⟨some 3, some 4, some 0⟩⟩⟩))
      0).delays = [1000, 2000] :=
  (c3_retry_policy "k1" ['s'] _).2.2.2.1 none none
    ⟨some ⟨some 1, some 2, some ⟨some 3, some 4, some 0⟩⟩⟩
    ⟨some 1, some 2, some ⟨some 3, some 4, some 0⟩⟩
    ⟨some 3, some 4, some 0⟩ rfl rfl rfl rfl rfl

/-- Claim C4: on a 2xx upstream response the fetch returns Failure
"Invalid API response" when the usage.standard substructure is absent
(either the usage block or its standard block missing); otherwise it
returns a Success whose window dates render the upstream epoch-millisecond
timestamps through `formatDate` — "N/A" when the timestamp is absent, the
UTC "YYYY-MM-DD" rendering when it is in the representable range, and
"Invalid Date" otherwise — and whose numeric fields default to 0 when the
corresponding upstream field is missing. -/
theorem c4_response_mapping (id : String) (key : List Char)
    (oracle : Nat → UpstreamResponse) (n s : Nat) (hok : 200 ≤ s ∧ s ≤ 299) :
    (∀ bd, oracle n = UpstreamResponse.http s (some bd) → bd.usage = none →
      (fetchApiKeyData id key oracle n).result =
        ApiKeyResult.failure ⟨id, maskApiKey key, "Invalid API response"⟩) ∧
    (∀ bd u, oracle n = UpstreamResponse.http s (some bd) → bd.usage = some u →
      u.standard = none →
      (fetchApiKeyData id key oracle n).result =
        ApiKeyResult.failure ⟨id, maskApiKey key, "Invalid API response"⟩) ∧
    (∀ bd u st, oracle n = UpstreamResponse.http s (some bd) → bd.usage = some u →
      u.standard = some st →
      (fetchApiKeyData id key oracle n).result =
        ApiKeyResult.usage ⟨id, maskApiKey key,
          formatDate (UsageBlock.startDate u), formatDate (UsageBlock.endDate u),
          Option.getD (StandardUsage.orgTotalTokensUsed st) 0,
          Option.getD (StandardUsage.totalAllowance st) 0,
          Option.getD (StandardUsage.usedRatio st) 0⟩) ∧
    formatDate none = "N/A" ∧
    (∀ t : Int, t.natAbs ≤ MAX_ECMA_TIMESTAMP → formatDate (some t) = toISODate t) ∧
    (∀ t : Int, MAX_ECMA_TIMESTAMP < t.natAbs → formatDate (some t) = "Invalid Date") := by
  refine ⟨?_, ?_, ?_, rfl, ?_, ?_⟩
  · intro bd h hu
    rw [fetchApiKeyData_noUsage id key hok h hu]
  · intro bd u h hu hst
    rw [fetchApiKeyData_noStandard id key hok h hu hst]
  · intro bd u st h hu hst
    rw [fetchApiKeyData_ok id key hok h hu hst]
  · intro t ht
    rw [formatDate]
    try dsimp only
    rw [if_pos ht]
  · intro t ht
    rw [formatDate]
    try dsimp only
    rw [if_neg (by omega)]

/-- Witness for C4 at a concrete 200 response whose standard block is
absent and at concrete timestamps. -/
theorem c4_response_mapping_witness :
    (fetchApiKeyData "k2" ['s']
      (fun _ => UpstreamResponse.http 200 (some ⟨some ⟨none, none, none⟩⟩)) 0).result =
      ApiKeyResult.failure ⟨"k2", maskApiKey ['s'], "Invalid API response"⟩ ∧
    formatDate (some 0) = toISODate 0 ∧
    formatDate (some 9000000000000000) = "Invalid Date" :=
  ⟨(c4_response_mapping "k2" ['s'] _ 0 200 (by omega)).2.1
      ⟨some ⟨none, none, none⟩⟩ ⟨none, none, none⟩ rfl rfl rfl,
   (c4_response_mapping "k2" ['s'] (fun _ => UpstreamResponse.transportError) 0 200
      (by omega)).2.2.2.2.1 0 (by norm_num [MAX_ECMA_TIMESTAMP]),
   (c4_response_mapping "k2" ['s'] (fun _ => UpstreamResponse.transportError) 0 200
      (by omega)).2.2.2.2.2 9000000000000000 (by norm_num [MAX_ECMA_TIMESTAMP])⟩

/-! ### Claim C8: results carry only the masked key -/

lemma fetchApiKeyData_key_mask :
    ∀ m n, 2 - n ≤ m → ∀ (id : String) (key : List Char)
      (oracle : Nat → UpstreamResponse),
      resultKeyField (fetchApiKeyData id key oracle n).result = maskApiKey key := by
  intro m
  induction m with
  | zero =>
    intro n hn id key oracle
    cases ho : oracle n with
    | transportError => rw [fetchApiKeyData_transport id key ho]; rfl
    | http s b =>
      by_cases hok : 200 ≤ s ∧ s ≤ 299
      · rcases b with _ | bd
        · rw [fetchApiKeyData_badJson id key hok ho]; rfl
        · rcases hu : bd.usage with _ | u
          · rw [fetchApiKeyData_noUsage id key hok ho hu]; rfl
          · rcases hst : u.standard with _ | st
            · rw [fetchApiKeyData_noStandard id key hok ho hu hst]; rfl
            · rw [fetchApiKeyData_ok id key hok ho hu hst]; rfl
      · rw [fetchApiKeyData_httpFail id key ho hok (by omega)]; rfl
  | succ k ih =>
    intro n hn id key oracle
    cases ho : oracle n with
    | transportError => rw [fetchApiKeyData_transport id key ho]; rfl
    | http s b =>
      by_cases hok : 200 ≤ s ∧ s ≤ 299
      · rcases b with _ | bd
        · rw [fetchApiKeyData_badJson id key hok ho]; rfl
        · rcases hu : bd.usage with _ | u
          · rw [fetchApiKeyData_noUsage id key hok ho hu]; rfl
          · rcases hst : u.standard with _ | st
            · rw [fetchApiKeyData_noStandard id key hok ho hu hst]; rfl
            · rw [fetchApiKeyData_ok id key hok ho hu hst]; rfl
      · by_cases hr : s = 401 ∧ n < 2
        · rw [hr.1] at ho
          rw [fetchApiKeyData_retry id key ho hr.2]
          exact ih (n + 1) (by omega) id key oracle
        · rw [fetchApiKeyData_httpFail id key ho hok hr]; rfl

lemma fetchApiKeyData_congr_mask :
    ∀ m n, 2 - n ≤ m → ∀ (id : String) (key key2 : List Char)
      (oracle : Nat → UpstreamResponse), maskApiKey key = maskApiKey key2 →
      fetchApiKeyData id key oracle n = fetchApiKeyData id key2 oracle n := by
  intro m
  induction m with
  | zero =>
    intro n hn id key key2 oracle hmask
    cases ho : oracle n with
    | transportError =>
      rw [fetchApiKeyData_transport id key ho, fetchApiKeyData_transport id key2 ho, hmask]
    | http s b =>
      by_cases hok : 200 ≤ s ∧ s ≤ 299
      · rcases b with _ | bd
        · rw [fetchApiKeyData_badJson id key hok ho, fetchApiKeyData_badJson id key2 hok ho,
            hmask]
        · rcases hu : bd.usage with _ | u
          · rw [fetchApiKeyData_noUsage id key hok ho hu,
              fetchApiKeyData_noUsage id key2 hok ho hu, hmask]
          · rcases hst : u.standard with _ | st
            · rw [fetchApiKeyData_noStandard id key hok ho hu hst,
                fetchApiKeyData_noStandard id key2 hok ho hu hst, hmask]
            · rw [fetchApiKeyData_ok id key hok ho hu hst,
                fetchApiKeyData_ok id key2 hok ho hu hst, hmask]
      · rw [fetchApiKeyData_httpFail id key ho hok (by omega),
          fetchApiKeyData_httpFail id key2 ho hok (by omega), hmask]
  | succ k ih =>
    intro n hn id key key2 oracle hmask
    cases ho : oracle n with
    | transportError =>
      rw [fetchApiKeyData_transport id key ho, fetchApiKeyData_transport id key2 ho, hmask]
    | http s b =>
      by_cases hok : 200 ≤ s ∧ s ≤ 299
      · rcases b with _ | bd
        · rw [fetchApiKeyData_badJson id key hok ho, fetchApiKeyData_badJson id key2 hok ho,
            hmask]
        · rcases hu : bd.usage with _ | u
          · rw [fetchApiKeyData_noUsage id key hok ho hu,
              fetchApiKeyData_noUsage id key2 hok ho hu, hmask]
          · rcases hst : u.standard with _ | st
            · rw [fetchApiKeyData_noStandard id key hok ho hu hst,
                fetchApiKeyData_noStandard id key2 hok ho hu hst, hmask]
            · rw [fetchApiKeyData_ok id key hok ho hu hst,
                fetchApiKeyData_ok id key2 hok ho hu hst, hmask]
      · by_cases hr : s = 401 ∧ n < 2
        · rw [hr.1] at ho
          rw [fetchApiKeyData_retry id key ho hr.2, fetchApiKeyData_retry id key2 ho hr.2,
            ih (n + 1) (by omega) id key key2 oracle hmask]
        · rw [fetchApiKeyData_httpFail id key ho hok hr,
            fetchApiKeyData_httpFail id key2 ho hok hr, hmask]

/-- Claim C8: every result, Success or Failure, carries the masked key in
its `key` field, and the fetch outcome depends on the raw secret only
through its mask — two secrets with the same mask produce identical
outcomes, so no field of the result retains the raw secret beyond what the
mask reveals. -/
theorem c8_masked_key (id : String) (key : List Char)
    (oracle : Nat → UpstreamResponse) (n : Nat) :
    resultKeyField (fetchApiKeyData id key oracle n).result = maskApiKey key ∧
    (∀ key2, maskApiKey key = maskApiKey key2 →
      fetchApiKeyData id key oracle n = fetchApiKeyData id key2 oracle n) :=
  ⟨fetchApiKeyData_key_mask (2 - n) n le_rfl id key oracle,
   fun key2 h => fetchApiKeyData_congr_mask (2 - n) n le_rfl id key key2 oracle h⟩

/-- Witness for C8: two distinct secrets with the same mask yield identical
fetch outcomes, and the key field is the mask. -/
theorem c8_masked_key_witness :
    resultKeyField (fetchApiKeyData "k3" ['a', 'b', 'c', 'd', 'X', 'e', 'f', 'g', 'h']
      (fun _ => UpstreamResponse.transportError) 0).result =
      maskApiKey ['a', 'b', 'c', 'd', 'X', 'e', 'f', 'g', 'h'] ∧
    fetchApiKeyData "k3" ['a', 'b', 'c', 'd', 'X', 'e', 'f', 'g', 'h']
      (fun _ => UpstreamResponse.transportError) 0 =
    fetchApiKeyData "k3" ['a', 'b', 'c', 'd', 'Y', 'e', 'f', 'g', 'h']
      (fun _ => UpstreamResponse.transportError) 0 :=
  ⟨(c8_masked_key "k3" ['a', 'b', 'c', 'd', 'X', 'e', 'f', 'g', 'h'] _ 0).1,
   (c8_masked_key "k3" ['a', 'b', 'c', 'd', 'X', 'e', 'f', 'g', 'h'] _ 0).2
     ['a', 'b', 'c', 'd', 'Y', 'e', 'f', 'g', 'h'] (by decide)⟩

/-! ### Claim C5: batch scheduling -/

section BatchLemmas

variable {T R : Type} (processor : T → R) (concurrency delayMs : Nat)
  (hc : 0 < concurrency)

lemma batchProcess_fst :
    ∀ (N : Nat) (l : List T), l.length ≤ N →
      (batchProcess l processor concurrency delayMs hc).1 = l.map processor := by
  intro N
  induction N with
  | zero =>
    intro l hl
    have hnil : l = [] := List.eq_nil_of_length_eq_zero (by omega)
    subst hnil
    simp only [batchProcess]
    rfl
  | succ k ih =>
    intro l hl
    cases l with
    | nil =>
      simp only [batchProcess]
      rfl
    | cons x xs =>
      simp only [batchProcess]
      rw [ih ((x :: xs).drop concurrency) (by simp only [List.length_drop, List.length_cons] at hl ⊢; omega)]
      rw [← List.map_append, List.take_append_drop]

lemma batchProcess_trace :
    ∀ (N : Nat) (l : List T), l.length ≤ N →
      (batchProcess l processor concurrency delayMs hc).2 =
        chunkTrace delayMs (toChunks concurrency hc l) := by
  intro N
  induction N with
  | zero =>
    intro l hl
    have hnil : l = [] := List.eq_nil_of_length_eq_zero (by omega)
    subst hnil
    simp only [batchProcess, toChunks, chunkTrace]
  | succ k ih =>
    intro l hl
    cases l with
    | nil => simp only [batchProcess, toChunks, chunkTrace]
    | cons x xs =>
      simp only [batchProcess, toChunks]
      rcases hrest : (x :: xs).drop concurrency with _ | ⟨y, ys⟩
      · simp only [List.isEmpty_nil, if_true, toChunks, chunkTrace]
        simp only [batchProcess]
      · have htr := ih ((x :: xs).drop concurrency)
          (by simp only [List.length_drop, List.length_cons] at hl ⊢; omega)
        rw [hrest] at htr
        rw [htr, if_neg (by simp)]
        simp only [toChunks, chunkTrace]

lemma toChunks_join :
    ∀ (N : Nat) (l : List T), l.length ≤ N →
      (toChunks concurrency hc l).flatten = l := by
  intro N
  induction N with
  | zero =>
    intro l hl
    have hnil : l = [] := List.eq_nil_of_length_eq_zero (by omega)
    subst hnil
    simp only [toChunks, List.flatten]
  | succ k ih =>
    intro l hl
    cases l with
    | nil => simp only [toChunks, List.flatten]
    | cons x xs =>
      simp only [toChunks, List.flatten_cons]
      rw [ih ((x :: xs).drop concurrency) (by simp only [List.length_drop, List.length_cons] at hl ⊢; omega), List.take_append_drop]

lemma toChunks_mem :
    ∀ (N : Nat) (l : List T), l.length ≤ N →
      ∀ b ∈ toChunks concurrency hc l, b ≠ [] ∧ b.length ≤ concurrency := by
  intro N
  induction N with
  | zero =>
    intro l hl
    have hnil : l = [] := List.eq_nil_of_length_eq_zero (by omega)
    subst hnil
    simp only [toChunks]
    intro b hb
    simp at hb
  | succ k ih =>
    intro l hl
    cases l with
    | nil =>
      intro b hb
      simp only [toChunks] at hb
      simp at hb
    | cons x xs =>
      intro b hb
      simp only [toChunks, List.mem_cons] at hb
      rcases hb with hb | hb
      · subst hb
        constructor
        · have : ((x :: xs).take concurrency).length = min concurrency (x :: xs).length := by
            simp
          intro hnil
          rw [hnil] at this
          simp at this
          omega
        · simp
      · exact ih ((x :: xs).drop concurrency) (by simp only [List.length_drop, List.length_cons] at hl ⊢; omega) b hb

lemma toChunks_eq_nil_iff (l : List T) :
    toChunks concurrency hc l = [] ↔ l = [] := by
  cases l with
  | nil => simp [toChunks]
  | cons x xs => simp [toChunks]

lemma toChunks_getD :
    ∀ (N : Nat) (l : List T), l.length ≤ N →
      ∀ i, i + 1 < (toChunks concurrency hc l).length →
        ((toChunks concurrency hc l).getD i []).length = concurrency := by
  intro N
  induction N with
  | zero =>
    intro l hl
    have hnil : l = [] := List.eq_nil_of_length_eq_zero (by omega)
    subst hnil
    intro i hi
    simp [toChunks] at hi
  | succ k ih =>
    intro l hl
    cases l with
    | nil =>
      intro i hi
      simp [toChunks] at hi
    | cons x xs =>
      intro i hi
      simp only [toChunks] at hi ⊢
      cases i with
      | zero =>
        simp only [List.getD_cons_zero]
        simp only [List.length_cons] at hi
        have hrest : toChunks concurrency hc ((x :: xs).drop concurrency) ≠ [] := by
          intro hnil
          rw [hnil] at hi
          simp at hi
        have hdrop : (x :: xs).drop concurrency ≠ [] := by
          intro hd
          exact hrest ((toChunks_eq_nil_iff concurrency hc _).2 hd)
        have hlen : concurrency < (x :: xs).length := by
          by_contra hcon
          exact hdrop (List.drop_eq_nil_of_le (by omega))
        simp only [List.length_take, List.length_cons]
        simp only [List.length_cons] at hlen
        omega
      | succ i =>
        simp only [List.getD_cons_succ]
        exact ih ((x :: xs).drop concurrency) (by simp only [List.length_drop, List.length_cons] at hl ⊢; omega) i
          (by simp only [List.length_cons] at hi; omega)

lemma chunkTrace_sleep_count (bs : List (List T)) (hbs : bs ≠ []) :
    ((chunkTrace delayMs bs).filter isSleepEvent).length = bs.length - 1 := by
  induction bs with
  | nil => exact absurd rfl hbs
  | cons b bs2 ih =>
    cases bs2 with
    | nil => simp [chunkTrace, isSleepEvent]
    | cons b2 bs3 =>
      have h := ih (by simp)
      simp [chunkTrace, List.filter_cons, isSleepEvent, h] <;> omega

lemma toChunks_length :
    ∀ (N : Nat) (l : List T), l.length ≤ N →
      (toChunks concurrency hc l).length = (l.length + concurrency - 1) / concurrency := by
  intro N
  induction N with
  | zero =>
    intro l hl
    have hnil : l = [] := List.eq_nil_of_length_eq_zero (by omega)
    subst hnil
    simp only [toChunks, List.length_nil]
    rw [Nat.div_eq_of_lt (by omega)]
  | succ k ih =>
    intro l hl
    cases l with
    | nil =>
      simp only [toChunks, List.length_nil]
      rw [Nat.div_eq_of_lt (by omega)]
    | cons x xs =>
      simp only [toChunks, List.length_cons]
      rw [ih ((x :: xs).drop concurrency) (by simp only [List.length_drop, List.length_cons] at hl ⊢; omega)]
      simp only [List.length_drop, List.length_cons]
      by_cases hlt : xs.length + 1 ≤ concurrency
      · have h1 : xs.length + 1 - concurrency = 0 := by omega
        rw [h1]
        have h2 : (0 + concurrency - 1) / concurrency = 0 :=
          Nat.div_eq_of_lt (by omega)
        rw [h2]
        have h3 : (xs.length + 1 + concurrency - 1) / concurrency = 1 :=
          Nat.div_eq_of_lt_le (by omega) (by omega)
        rw [h3]
      · have h4 : xs.length + 1 + concurrency - 1
            = (xs.length + 1 - concurrency + concurrency - 1) + concurrency := by
          omega
        rw [h4]
        rw [Nat.add_div_right _ (by omega)]

end BatchLemmas

/-- Claim C5: for every item list, worker, concurrency ≥ 1 and delay, the
batch scheduler returns the workers' results in input order (the result
list is exactly `items.map processor`); the schedule trace partitions the
items into consecutive chunks — every chunk nonempty, of size at most
`concurrency`, every chunk but the last of size exactly `concurrency`,
their concatenation the input — run in order with exactly one sleep of
`delayMs` between consecutive chunks and none after the last, which makes
`ceil(n / concurrency) - 1` sleeps for `n > 0` items. -/
theorem c5_batch_schedule {T R : Type} (items : List T) (processor : T → R)
    (concurrency delayMs : Nat) (hc : 0 < concurrency) :
    (batchProcess items processor concurrency delayMs hc).1 = items.map processor ∧
    (batchProcess items processor concurrency delayMs hc).2 =
      chunkTrace delayMs (toChunks concurrency hc items) ∧
    (toChunks concurrency hc items).flatten = items ∧
    (∀ b ∈ toChunks concurrency hc items, b ≠ [] ∧ b.length ≤ concurrency) ∧
    (∀ i, i + 1 < (toChunks concurrency hc items).length →
      ((toChunks concurrency hc items).getD i []).length = concurrency) ∧
    (items ≠ [] →
      (((batchProcess items processor concurrency delayMs hc).2.filter
          isSleepEvent).length
        = (items.length + concurrency - 1) / concurrency - 1)) := by
  refine ⟨batchProcess_fst processor concurrency delayMs hc items.length items le_rfl,
    batchProcess_trace processor concurrency delayMs hc items.length items le_rfl,
    toChunks_join concurrency hc items.length items le_rfl,
    toChunks_mem concurrency hc items.length items le_rfl,
    toChunks_getD concurrency hc items.length items le_rfl, ?_⟩
  intro hne
  rw [batchProcess_trace processor concurrency delayMs hc items.length items le_rfl]
  rw [chunkTrace_sleep_count delayMs _
    (fun hnil => hne ((toChunks_eq_nil_iff concurrency hc items).1 hnil))]
  rw [toChunks_length concurrency hc items.length items le_rfl]

/-- Witness for C5: three items with concurrency 2 and delay 100. -/
theorem c5_batch_schedule_witness :
    (batchProcess [1, 2, 3] (fun n => n + 10) 2 100 (by norm_num)).1 =
      [1, 2, 3].map (fun n => n + 10) ∧
    (((batchProcess [1, 2, 3] (fun n => n + 10) 2 100 (by norm_num)).2.filter
        isSleepEvent).length = ([1, 2, 3].length + 2 - 1) / 2 - 1) :=
  ⟨(c5_batch_schedule [1, 2, 3] (fun n => n + 10) 2 100 (by norm_num)).1,
   (c5_batch_schedule [1, 2, 3] (fun n => n + 10) 2 100 (by norm_num)).2.2.2.2.2
     (by decide)⟩

/-! ### Aggregation: stability of the sort, claims C1, C2, C7 -/

lemma filter_orderedInsert_pos (k : Int) (x : ApiKeyResult) (hx : remainingR x = k)
    (s : List ApiKeyResult) :
    (s.orderedInsert remGE x).filter (remEq k) = x :: s.filter (remEq k) := by
  induction s with
  | nil => simp [List.orderedInsert, remEq, hx]
  | cons y s2 ih =>
    simp only [List.orderedInsert]
    by_cases h : remGE x y
    · rw [if_pos h]
      simp [List.filter_cons, remEq, hx]
    · rw [if_neg h]
      have hy : remainingR y ≠ k := by
        simp only [remGE] at h
        omega
      have hyd : remEq k y = false := by simp [remEq, hy]
      simp [List.filter_cons, hyd, ih]

lemma filter_orderedInsert_neg (k : Int) (x : ApiKeyResult) (hx : remainingR x ≠ k)
    (s : List ApiKeyResult) :
    (s.orderedInsert remGE x).filter (remEq k) = s.filter (remEq k) := by
  induction s with
  | nil => simp [List.orderedInsert, remEq, hx]
  | cons y s2 ih =>
    simp only [List.orderedInsert]
    by_cases h : remGE x y
    · rw [if_pos h]
      simp [List.filter_cons, remEq, hx]
    · rw [if_neg h]
      simp [List.filter_cons, ih]

/-- The insertion sort is stable: it does not reorder results of equal
remaining balance. -/
lemma filter_insertionSort_rem (k : Int) (l : List ApiKeyResult) :
    (List.insertionSort remGE l).filter (remEq k) = l.filter (remEq k) := by
  induction l with
  | nil => rfl
  | cons x l2 ih =>
    simp only [List.insertionSort]
    by_cases hx : remainingR x = k
    · rw [filter_orderedInsert_pos k x hx, ih]
      simp [List.filter_cons, remEq, hx]
    · rw [filter_orderedInsert_neg k x hx, ih]
      simp [List.filter_cons, remEq, hx]

lemma getAggregatedData_empty (fetchResult : ApiKey → ApiKeyResult) (nowMs : Int) :
    getAggregatedData [] fetchResult nowMs =
      (⟨formatDateTime (getBeijingTime nowMs), 0, ⟨0, 0, 0⟩, []⟩, 0) := by
  rw [getAggregatedData]
  rfl

lemma getAggregatedData_def (keyPairs : List ApiKey) (fetchResult : ApiKey → ApiKeyResult)
    (nowMs : Int) (hne : keyPairs ≠ []) :
    getAggregatedData keyPairs fetchResult nowMs =
      (⟨formatDateTime (getBeijingTime nowMs), keyPairs.length,
        ((keyPairs.map fetchResult).filter isApiUsageData).foldl totalsStep ⟨0, 0, 0⟩,
        List.insertionSort remGE ((keyPairs.map fetchResult).filter isApiUsageData)
          ++ (keyPairs.map fetchResult).filter hasError⟩, 1) := by
  rw [getAggregatedData]
  dsimp only
  rw [if_neg (by simpa [List.length_eq_zero] using hne)]
  rw [batchProcess_fst fetchResult 10 100 (by norm_num) keyPairs.length keyPairs le_rfl]

lemma sorted_data_perm (results : List ApiKeyResult) :
    (List.insertionSort remGE (results.filter isApiUsageData)
      ++ results.filter hasError).Perm results := by
  have h1 : (List.insertionSort remGE (results.filter isApiUsageData)).Perm
      (results.filter isApiUsageData) := List.perm_insertionSort remGE _
  have h3 : results.filter hasError = results.filter (fun x => !(isApiUsageData x)) := by
    apply List.filter_congr
    intro a _
    cases a <;> rfl
  rw [h3]
  exact (h1.append_right _).trans (List.filter_append_perm isApiUsageData results)

lemma sorted_data_pairwise (results : List ApiKeyResult) :
    (List.insertionSort remGE (results.filter isApiUsageData)
      ++ results.filter hasError).Pairwise
      (fun a b => hasError a = true → hasError b = true) := by
  rw [List.pairwise_append]
  refine ⟨?_, ?_, ?_⟩
  · apply List.pairwise_of_forall_mem_list
    intro a ha b hb hae
    have hmem : a ∈ results.filter isApiUsageData := by simpa using ha
    have := (List.mem_filter.1 hmem).2
    cases a <;> simp_all [hasError, isApiUsageData]
  · apply List.pairwise_of_forall_mem_list
    intro a ha b hb hae
    exact (List.mem_filter.1 hb).2
  · intro a ha b hb hae
    exact (List.mem_filter.1 hb).2

lemma sorted_data_filter_success (results : List ApiKeyResult) :
    (List.insertionSort remGE (results.filter isApiUsageData)
      ++ results.filter hasError).filter isApiUsageData
    = List.insertionSort remGE (results.filter isApiUsageData) := by
  rw [List.filter_append]
  have h1 : (List.insertionSort remGE (results.filter isApiUsageData)).filter
      isApiUsageData = List.insertionSort remGE (results.filter isApiUsageData) := by
    rw [List.filter_eq_self]
    intro a ha
    have hmem : a ∈ results.filter isApiUsageData := by simpa using ha
    exact (List.mem_filter.1 hmem).2
  have h2 : (results.filter hasError).filter isApiUsageData = [] := by
    rw [List.filter_eq_nil_iff]
    intro a ha
    have := (List.mem_filter.1 ha).2
    cases a <;> simp_all [hasError, isApiUsageData]
  rw [h1, h2, List.append_nil]

lemma sorted_data_filter_err (results : List ApiKeyResult) :
    (List.insertionSort remGE (results.filter isApiUsageData)
      ++ results.filter hasError).filter hasError = results.filter hasError := by
  rw [List.filter_append]
  have h1 : (List.insertionSort remGE (results.filter isApiUsageData)).filter
      hasError = [] := by
    rw [List.filter_eq_nil_iff]
    intro a ha
    have hmem : a ∈ results.filter isApiUsageData := by simpa using ha
    have := (List.mem_filter.1 hmem).2
    cases a <;> simp_all [hasError, isApiUsageData]
  have h2 : (results.filter hasError).filter hasError = results.filter hasError := by
    rw [List.filter_eq_self]
    intro a ha
    exact (List.mem_filter.1 ha).2
  rw [h1, h2, List.nil_append]

lemma sorted_data_stable (k : Int) (results : List ApiKeyResult) :
    (List.insertionSort remGE (results.filter isApiUsageData)
      ++ results.filter hasError).filter (fun r => isApiUsageData r && remEq k r)
    = results.filter (fun r => isApiUsageData r && remEq k r) := by
  rw [List.filter_append]
  have h2 : (results.filter hasError).filter
      (fun r => isApiUsageData r && remEq k r) = [] := by
    rw [List.filter_eq_nil_iff]
    intro a ha
    have := (List.mem_filter.1 ha).2
    cases a <;> simp_all [hasError, isApiUsageData]
  have h1 : (List.insertionSort remGE (results.filter isApiUsageData)).filter
      (fun r => isApiUsageData r && remEq k r)
      = (List.insertionSort remGE (results.filter isApiUsageData)).filter (remEq k) := by
    apply List.filter_congr
    intro a ha
    have hmem : a ∈ results.filter isApiUsageData := by simpa using ha
    rw [(List.mem_filter.1 hmem).2, Bool.true_and]
  have h3 : results.filter (fun r => isApiUsageData r && remEq k r)
      = (results.filter isApiUsageData).filter (remEq k) := by
    rw [List.filter_filter]
    apply List.filter_congr
    intro a _
    rw [Bool.and_comm]
  rw [h1, h2, filter_insertionSort_rem k, h3, List.append_nil]

/-- Claim C1: the report's `data` is a permutation of the per-key results
(same length, nothing dropped or duplicated); every Success entry precedes
every Failure entry; the Success entries are sorted by remaining balance in
descending order; entries of equal remaining balance keep their input order
(stability); and the Failure entries keep their input order. -/
theorem c1_data_ordering (keyPairs : List ApiKey) (fetchResult : ApiKey → ApiKeyResult)
    (nowMs : Int) :
    ((getAggregatedData keyPairs fetchResult nowMs).1.data).Perm
      (keyPairs.map fetchResult) ∧
    ((getAggregatedData keyPairs fetchResult nowMs).1.data).Pairwise
      (fun a b => hasError a = true → hasError b = true) ∧
    (((getAggregatedData keyPairs fetchResult nowMs).1.data).filter
      isApiUsageData).Pairwise remGE ∧
    (∀ k : Int, ((getAggregatedData keyPairs fetchResult nowMs).1.data).filter
        (fun r => isApiUsageData r && remEq k r)
      = (keyPairs.map fetchResult).filter (fun r => isApiUsageData r && remEq k r)) ∧
    ((getAggregatedData keyPairs fetchResult nowMs).1.data).filter hasError
      = (keyPairs.map fetchResult).filter hasError := by
  rcases keyPairs with _ | ⟨p, ps⟩
  · rw [getAggregatedData_empty]
    exact ⟨by simp, by simp, by simp, fun k => by simp, by simp⟩
  · rw [getAggregatedData_def (p :: ps) fetchResult nowMs (by simp)]
    dsimp only
    refine ⟨sorted_data_perm _, sorted_data_pairwise _, ?_,
      fun k => sorted_data_stable k _, sorted_data_filter_err _⟩
    rw [sorted_data_filter_success]
    exact List.sorted_insertionSort remGE _

lemma foldl_totalsStep_eq (l : List ApiKeyResult) :
    ∀ acc : UsageTotals,
      l.foldl totalsStep acc =
        ⟨acc.total_orgTotalTokensUsed + (l.map usedOf).sum,
         acc.total_totalAllowance + (l.map allowanceOf).sum,
         acc.totalRemaining + (l.map remainingR).sum⟩ := by
  induction l with
  | nil =>
    intro acc
    simp only [List.foldl_nil, List.map_nil, List.sum_nil, add_zero]
  | cons x l2 ih =>
    intro acc
    simp only [List.foldl_cons, List.map_cons, List.sum_cons]
    rw [ih]
    simp [totalsStep, add_assoc]

/-- Claim C2: the report's totals are exact sums over Success entries only:
total_orgTotalTokensUsed sums orgTotalTokensUsed, total_totalAllowance sums
totalAllowance, and totalRemaining sums max(0, totalAllowance −
orgTotalTokensUsed); Failure entries contribute to none of them. -/
theorem c2_totals (keyPairs : List ApiKey) (fetchResult : ApiKey → ApiKeyResult)
    (nowMs : Int) :
    ((getAggregatedData keyPairs fetchResult nowMs).1.totals).total_orgTotalTokensUsed
      = ((((keyPairs.map fetchResult).filter isApiUsageData).map usedOf).sum) ∧
    ((getAggregatedData keyPairs fetchResult nowMs).1.totals).total_totalAllowance
      = ((((keyPairs.map fetchResult).filter isApiUsageData).map allowanceOf).sum) ∧
    ((getAggregatedData keyPairs fetchResult nowMs).1.totals).totalRemaining
      = ((((keyPairs.map fetchResult).filter isApiUsageData).map remainingR).sum) ∧
    (∀ u : ApiUsageData, remainingR (ApiKeyResult.usage u)
      = max 0 (u.totalAllowance - u.orgTotalTokensUsed)) := by
  rcases keyPairs with _ | ⟨p, ps⟩
  · rw [getAggregatedData_empty]
    exact ⟨by simp, by simp, by simp, fun u => rfl⟩
  · rw [getAggregatedData_def (p :: ps) fetchResult nowMs (by simp)]
    dsimp only
    rw [foldl_totalsStep_eq]
    exact ⟨by simp, by simp, by simp, fun u => rfl⟩

/-- Claim C7: the report's total_count equals the number of credentials
considered, including those that produced Failure results; for an empty
credential snapshot the report has count 0, zero totals and empty data, and
that path performs no batch-scheduler invocation (second component 0) and
hence no upstream fetch. -/
theorem c7_total_count (keyPairs : List ApiKey) (fetchResult : ApiKey → ApiKeyResult)
    (nowMs : Int) :
    (getAggregatedData keyPairs fetchResult nowMs).1.total_count = keyPairs.length ∧
    (keyPairs = [] →
      (getAggregatedData keyPairs fetchResult nowMs).1 =
        ⟨formatDateTime (getBeijingTime nowMs), 0, ⟨0, 0, 0⟩, []⟩ ∧
      (getAggregatedData keyPairs fetchResult nowMs).2 = 0) := by
  rcases keyPairs with _ | ⟨p, ps⟩
  · rw [getAggregatedData_empty]
    exact ⟨rfl, fun _ => ⟨rfl, rfl⟩⟩
  · rw [getAggregatedData_def (p :: ps) fetchResult nowMs (by simp)]
    exact ⟨rfl, fun h => by simp at h⟩

/-- Witness for C7 at the empty credential set. -/
theorem c7_total_count_witness :
    (getAggregatedData [] (fun p => ApiKeyResult.failure ⟨p.id, maskApiKey p.key, "x"⟩) 0).1 =
      ⟨formatDateTime (getBeijingTime 0), 0, ⟨0, 0, 0⟩, []⟩ ∧
    (getAggregatedData [] (fun p => ApiKeyResult.failure ⟨p.id, maskApiKey p.key, "x"⟩) 0).2
      = 0 :=
  (c7_total_count [] (fun p => ApiKeyResult.failure ⟨p.id, maskApiKey p.key, "x"⟩) 0).2 rfl

/-! ### Claim C6: report cache and orchestrator -/

/-- Claim C6: a report read returns the cached report unchanged when the
cache holds an unexpired entry; on a miss it builds the fresh report from
the credential snapshot, stores it with absolute expiry now + ttl where
ttl = 2 × 60 s = 120 s (twice the polling interval), and returns it; and a
stored entry whose expiry has passed reads as absent, which triggers the
recomputation path. -/
theorem c6_cache_semantics (st : KVCache) (nowSec : Nat) (keyPairs : List ApiKey)
    (fetchResult : ApiKey → ApiKeyResult) (nowMs : Int) :
    (∀ rep, getCachedData st nowSec = some rep →
      handleGetData st nowSec keyPairs fetchResult nowMs = (rep, st)) ∧
    (getCachedData st nowSec = none →
      handleGetData st nowSec keyPairs fetchResult nowMs =
        ((getAggregatedData keyPairs fetchResult nowMs).1,
          ⟨some ((getAggregatedData keyPairs fetchResult nowMs).1,
            nowSec + AUTO_REFRESH_INTERVAL_SECONDS * 2)⟩)) ∧
    AUTO_REFRESH_INTERVAL_SECONDS * 2 = 120 ∧
    (∀ rep expiry, st.slot = some (rep, expiry) → expiry ≤ nowSec →
      getCachedData st nowSec = none) := by
  refine ⟨?_, ?_, rfl, ?_⟩
  · intro rep h
    rw [handleGetData, h]
  · intro h
    rw [handleGetData, h]
    rfl
  · intro rep expiry hslot hexp
    rw [getCachedData, hslot]
    dsimp only
    rw [if_neg (by omega)]

/-- Witness for C6: a cache miss on the empty slot stores the fresh report
with expiry now + 120. -/
theorem c6_cache_semantics_witness :
    handleGetData ⟨none⟩ 5 []
      (fun p => ApiKeyResult.failure ⟨p.id, maskApiKey p.key, "x"⟩) 0 =
      ((getAggregatedData []
          (fun p => ApiKeyResult.failure ⟨p.id, maskApiKey p.key, "x"⟩) 0).1,
        ⟨some ((getAggregatedData []
            (fun p => ApiKeyResult.failure ⟨p.id, maskApiKey p.key, "x"⟩) 0).1,
          5 + AUTO_REFRESH_INTERVAL_SECONDS * 2)⟩) :=
  (c6_cache_semantics ⟨none⟩ 5 []
    (fun p => ApiKeyResult.failure ⟨p.id, maskApiKey p.key, "x"⟩) 0).2.1 rfl

end DroidApikey
